import Mathlib

/-!
Verification of the financial calculation engine of `ProjetoEE.py`
(capital-budgeting metrics: NPV, IRR, discounted payback period, and the
two-alternative comparator).

The Python floats are embedded as exact rationals (`ℚ`); the value
`float('inf')` returned by `discounted_payback_period` is embedded as `⊤`
in `WithTop ℚ`; the IEEE `nan` that `numpy_financial.irr` produces when no
internal rate of return exists is embedded as `none` in `Option ℚ`
(Python's `nan > x` and `x > nan` are both `False`, which `floatGt`
reproduces).
-/

namespace EngEcon

/-- Discounted cash flow of period `t`:
`npf.pv(rate=r, pmt=0, nper=t, fv=-S[t]) = S[t] / (1+r)^t`
(line 74 of `ProjetoEE.py`). -/
def dcf (r : ℚ) (S : List ℚ) (t : ℕ) : ℚ :=
  S.getD t 0 / (1 + r) ^ t

/-- Cumulative discounted cash flow through period `t`:
`np.cumsum` of the discounted flows (line 77 of `ProjetoEE.py`). -/
def cum (r : ℚ) (S : List ℚ) (t : ℕ) : ℚ :=
  ∑ j ∈ Finset.range (t + 1), dcf r S j

/-- The periods whose cumulative discounted cash flow is negative
(line 80 of `ProjetoEE.py`). -/
def negPeriods (r : ℚ) (S : List ℚ) : List ℕ :=
  (List.range S.length).filter (fun t => decide (cum r S t < 0))

/-- Embedding of `discounted_payback_period` (lines 56–97 of `ProjetoEE.py`).
If no period has negative cumulative discounted flow, the code returns
`float('inf')`; if the last such period is the final period of the series
it also returns `float('inf')`; otherwise it interpolates
`t* + (-cum[t*] / dcf[t*+1])`. -/
def discounted_payback_period (r : ℚ) (S : List ℚ) : WithTop ℚ :=
  match (negPeriods r S).max? with
  | none => ⊤
  | some t =>
      if t = S.length - 1 then ⊤
      else (((t : ℚ) + (- cum r S t) / dcf r S (t + 1) : ℚ) : WithTop ℚ)

/-- Net present value as computed by `numpy_financial.npv` (line 113 of
`ProjetoEE.py`): `(values / (1+rate)**arange(len(values))).sum()`,
i.e. the sum over `t` of `S[t] / (1+r)^t`.  Polymorphic over the field so
the same definition serves the exact-rational engine model and the
real-analytic internal-rate-of-return statements. -/
def npv {K : Type} [Field K] (r : K) (S : List K) : K :=
  ∑ t ∈ Finset.range S.length, S.getD t 0 / (1 + r) ^ t

/-- Direct summation of discounted terms, written independently of `npv`
following the specification's words: "sum over periods t=0..N of
series[t] / (1+rate)^t". -/
def npvDirect (r : ℚ) (S : List ℚ) : ℚ :=
  (S.mapIdx (fun t a => a / (1 + r) ^ t)).sum

/-- Round-half-to-even on rationals, the rounding rule of Python's
built-in `round`. -/
def roundHalfEven (q : ℚ) : ℤ :=
  if q - ⌊q⌋ < 1 / 2 then ⌊q⌋
  else if 1 / 2 < q - ⌊q⌋ then ⌊q⌋ + 1
  else if Even ⌊q⌋ then ⌊q⌋ else ⌊q⌋ + 1

/-- Python's `round(x, 2)` (lines 113, 115, 117, 119 of `ProjetoEE.py`). -/
def round2 (q : ℚ) : ℚ :=
  (roundHalfEven (q * 100) : ℚ) / 100

/-- Python's `>` on floats where either operand may be `nan`
(embedded as `none`): any comparison involving `nan` is `False`. -/
def floatGt : Option ℚ → Option ℚ → Bool
  | some a, some b => decide (b < a)
  | _, _ => false

/-- The decision column `'Alternativa Escolhida'` of the comparison
table, one field per metric row (`TIR`, `VPL`, `Payback`). -/
structure ComparisonRow where
  chosenTIR : String
  chosenVPL : String
  chosenPayback : String

/-- Embedding of `compare_alternatives` (lines 100–110 of `ProjetoEE.py`), restricted
to the decision column:
`'A' if tir_a > tir_b else 'B'`, `'A' if vpl_a > vpl_b else 'B'`,
`'A' if payback_a < payback_b else 'B'`.
The `<` on `WithTop ℚ` agrees with Python's `<` on floats with
`float('inf')`: `inf < inf` is false, `x < inf` is true for finite `x`,
`inf < x` is false. -/
def compare_alternatives (tir_a : Option ℚ) (vpl_a : ℚ) (payback_a : WithTop ℚ)
    (tir_b : Option ℚ) (vpl_b : ℚ) (payback_b : WithTop ℚ) : ComparisonRow :=
  { chosenTIR := if floatGt tir_a tir_b then "A" else "B"
    chosenVPL := if vpl_a > vpl_b then "A" else "B"
    chosenPayback := if payback_a < payback_b then "A" else "B" }

/-- The value pipeline of lines 113–119 and 139 of `ProjetoEE.py`: the
comparator is invoked on `round(npf.npv(rate, S), 2)` and
`round(discounted_payback_period(rate, S), 2)` (rounding a float leaves
`inf` unchanged, hence `WithTop.map`).  The IRR values come from the
numerical solver `npf.irr` and are passed through as parameters
(`none` embeds its `nan` outcome). -/
def resultado_comparacao (r : ℚ) (A B : List ℚ) (tirA tirB : Option ℚ) :
    ComparisonRow :=
  compare_alternatives
    tirA (round2 (npv r A)) ((discounted_payback_period r A).map round2)
    tirB (round2 (npv r B)) ((discounted_payback_period r B).map round2)

/-- A conventional investment shape with exactly one sign change at
index `k`: outflows (nonpositive values) through period `k`, inflows
(nonnegative values) afterwards. -/
def OneSignChange (k : ℕ) (S : List ℚ) : Prop :=
  (∀ j, j ≤ k → S.getD j 0 ≤ 0) ∧
  (∀ j, j < S.length → k < j → 0 ≤ S.getD j 0)

/-! ### Basic facts about the embedding -/

theorem cum_succ (r : ℚ) (S : List ℚ) (t : ℕ) :
    cum r S (t + 1) = cum r S t + dcf r S (t + 1) :=
  Finset.sum_range_succ _ _

theorem mem_negPeriods {r : ℚ} {S : List ℚ} {t : ℕ} :
    t ∈ negPeriods r S ↔ t < S.length ∧ cum r S t < 0 := by
  simp [negPeriods, List.mem_filter, List.mem_range]

/-- Characterization of the `.max()` step (line 85 of `ProjetoEE.py`):
`negPeriods.max? = some t` exactly when `t` is a period with negative
cumulative discounted flow and no later period has one. -/
theorem negPeriods_max_eq {r : ℚ} {S : List ℚ} {t : ℕ}
    (ht : t < S.length) (hneg : cum r S t < 0)
    (hlast : ∀ u, t < u → u < S.length → 0 ≤ cum r S u) :
    (negPeriods r S).max? = some t := by
  rw [List.max?_eq_some_iff']
  constructor
  · exact mem_negPeriods.mpr ⟨ht, hneg⟩
  · intro b hb
    rcases mem_negPeriods.mp hb with ⟨hb1, hb2⟩
    by_contra hbt
    exact absurd (hlast b (by omega) hb1) (not_le.mpr hb2)

/-- When the last period with negative cumulative discounted flow is not
the final period, the function returns the interpolated value
`t* + (-cum[t*] / dcf[t*+1])`. -/
theorem payback_interp {r : ℚ} {S : List ℚ} {t : ℕ}
    (ht : t < S.length) (hneg : cum r S t < 0)
    (hlast : ∀ u, t < u → u < S.length → 0 ≤ cum r S u)
    (hne : t ≠ S.length - 1) :
    discounted_payback_period r S =
      (((t : ℚ) + (- cum r S t) / dcf r S (t + 1) : ℚ) : WithTop ℚ) := by
  unfold discounted_payback_period
  rw [negPeriods_max_eq ht hneg hlast]
  simp [hne]

/-- When the final period still has negative cumulative discounted flow,
`final_full_year == cf_df.index.max()` holds and the function returns
`float('inf')`. -/
theorem payback_top_of_cum_last_neg {r : ℚ} {S : List ℚ}
    (hS : S ≠ []) (h : cum r S (S.length - 1) < 0) :
    discounted_payback_period r S = ⊤ := by
  have hlen : 0 < S.length := List.length_pos.mpr hS
  unfold discounted_payback_period
  rw [negPeriods_max_eq (by omega) h (fun u hu1 hu2 => by omega)]
  simp

/-- When no period has negative cumulative discounted flow,
`negative_cash_flows.empty` holds and the function returns
`float('inf')`. -/
theorem payback_top_of_nonneg {r : ℚ} {S : List ℚ}
    (h : ∀ t, t < S.length → 0 ≤ cum r S t) :
    discounted_payback_period r S = ⊤ := by
  have hempty : negPeriods r S = [] := by
    rw [List.eq_nil_iff_forall_not_mem]
    intro t htmem
    rcases mem_negPeriods.mp htmem with ⟨h1, h2⟩
    exact absurd (h t h1) (not_le.mpr h2)
  unfold discounted_payback_period
  rw [hempty]
  rfl

/-- Sum of an index-aware map equals the index-sum over `Finset.range`. -/
theorem mapIdx_sum_eq (S : List ℚ) (f : ℕ → ℚ → ℚ) :
    (S.mapIdx f).sum = ∑ t ∈ Finset.range S.length, f t (S.getD t 0) := by
  induction S generalizing f with
  | nil => simp
  | cons a l ih =>
      rw [List.mapIdx_cons, List.sum_cons, ih (fun i => f (i + 1)),
        List.length_cons, Finset.sum_range_succ']
      simp [add_comm]

/-- The engine's NPV (the `numpy_financial.npv` summation) coincides
exactly with the specification's direct summation of discounted terms. -/
theorem npv_eq_npvDirect (r : ℚ) (S : List ℚ) : npv r S = npvDirect r S := by
  rw [npvDirect, mapIdx_sum_eq]
  rfl

/-! ### Claim theorems -/

/-- C1: for a discount rate `r > -1` and a series whose cumulative
discounted sum is negative at some period, with `t*` the last period where
`cum[t*] < 0`, `discounted_payback_period` returns
`t* + (-cum[t*] / dcf[t*+1])` when `t*` is not the final period of the
series, and infinity when `t*` is the final period. -/
theorem discounted_payback_rule (r : ℚ) (S : List ℚ) (t : ℕ)
    (_hr : -1 < r) (ht : t < S.length) (hneg : cum r S t < 0)
    (hlast : ∀ u, t < u → u < S.length → 0 ≤ cum r S u) :
    discounted_payback_period r S =
      if t = S.length - 1 then ⊤
      else (((t : ℚ) + (- cum r S t) / dcf r S (t + 1) : ℚ) : WithTop ℚ) := by
  by_cases hc : t = S.length - 1
  · rw [if_pos hc]
    exact payback_top_of_cum_last_neg
      (by rintro rfl; simp at ht) (hc ▸ hneg)
  · rw [if_neg hc]
    exact payback_interp ht hneg hlast hc

/-- Witness for C1 at `r = 1/10`, `S = [-200, 100, 100, 100, 100]`,
`t* = 2`: the payback is `2 + (3200/121)/(100000/1331) = 2.352`. -/
theorem discounted_payback_rule_witness :
    discounted_payback_period (1/10) [-200, 100, 100, 100, 100] =
      ((294/125 : ℚ) : WithTop ℚ) := by
  have h := discounted_payback_rule (1/10) [-200, 100, 100, 100, 100] 2
    (by norm_num) (by norm_num)
    (by norm_num [cum, dcf, Finset.sum_range_succ])
    (by intro u h1 h2
        simp only [List.length_cons, List.length_nil] at h2
        interval_cases u <;> norm_num [cum, dcf, Finset.sum_range_succ])
  rw [h, if_neg (by norm_num)]
  have hv : ((2 : ℕ) : ℚ) + (- cum (1/10) [-200, 100, 100, 100, 100] 2) /
      dcf (1/10) [-200, 100, 100, 100, 100] (2 + 1) = 294/125 := by
    norm_num [cum, dcf, Finset.sum_range_succ]
  rw [hv]

/-- C2: the NPV computed by the engine (`numpy_financial.npv` summation)
matches the direct summation of discounted terms within tolerance `1e-9`
for every rate `r > -1` and non-empty series; the embedding is a pure
function, so the computation is deterministic with no side effects. -/
theorem npv_matches_direct_summation (r : ℚ) (S : List ℚ)
    (_hr : -1 < r) (_hS : S ≠ []) :
    |npv r S - npvDirect r S| ≤ 1 / 1000000000 := by
  rw [npv_eq_npvDirect, sub_self, abs_zero]
  norm_num

/-- Witness for C2 at `r = 1/10`, `S = [-200, 100, 100, 100, 100]`. -/
theorem npv_matches_direct_summation_witness :
    |npv (1/10 : ℚ) [-200, 100, 100, 100, 100] -
      npvDirect (1/10) [-200, 100, 100, 100, 100]| ≤ 1 / 1000000000 :=
  npv_matches_direct_summation (1/10) [-200, 100, 100, 100, 100]
    (by norm_num) (by simp)

/-- C4 counterexample: a series whose cumulative discounted flow is never
negative (`[100, 100]`) yields `float('inf')` — the very same value
returned for a series whose investment is never recovered
(`[-1000, 10, 10, 10]`), so the "no payback needed" outcome is NOT
distinguishable from the infinite "never recovered" outcome. -/
theorem no_payback_needed_counterexample :
    discounted_payback_period (1/10) [100, 100] = ⊤ ∧
    discounted_payback_period (1/10) [-1000, 10, 10, 10] = ⊤ := by
  constructor
  · refine payback_top_of_nonneg ?_
    intro t ht
    simp only [List.length_cons, List.length_nil] at ht
    interval_cases t <;> norm_num [cum, dcf, Finset.sum_range_succ]
  · refine payback_top_of_cum_last_neg (by simp) ?_
    norm_num [cum, dcf, Finset.sum_range_succ]

/-- C4 amended: when the cumulative discounted cash flow is never
negative, `discounted_payback_period` returns `float('inf')` — it does
not crash, but the value is identical to the infinite "never recovered"
result rather than a distinguishable degenerate signal. -/
theorem payback_inf_when_cum_never_negative (r : ℚ) (S : List ℚ)
    (h : ∀ t, t < S.length → 0 ≤ cum r S t) :
    discounted_payback_period r S = ⊤ :=
  payback_top_of_nonneg h

/-- Witness for the amended C4 at `r = 1/10`, `S = [100, 100, 100]`. -/
theorem payback_inf_when_cum_never_negative_witness :
    discounted_payback_period (1/10) [100, 100, 100] = ⊤ := by
  refine payback_inf_when_cum_never_negative (1/10) [100, 100, 100] ?_
  intro t ht
  simp only [List.length_cons, List.length_nil] at ht
  interval_cases t <;> norm_num [cum, dcf, Finset.sum_range_succ]

/-- C5: whenever the interpolation step is reached (`t*` is the last
period with negative cumulative discounted flow and is not the final
period), the divisor `dcf[t*+1] = cum[t*+1] - cum[t*]` is strictly
positive, because `cum[t*] < 0 ≤ cum[t*+1]`.  The division-by-zero
failure mode at the interpolation boundary is therefore unreachable: no
input satisfies the claim's guard `dcf[t*+1] = 0`, the code never
crashes there, and a fortiori the claim's conditional holds. -/
theorem interpolation_divisor_positive (r : ℚ) (S : List ℚ) (t : ℕ)
    (_hr : -1 < r) (ht : t < S.length) (hneg : cum r S t < 0)
    (hlast : ∀ u, t < u → u < S.length → 0 ≤ cum r S u)
    (hne : t ≠ S.length - 1) :
    0 < dcf r S (t + 1) := by
  have h1 : t + 1 < S.length := by omega
  have h2 : 0 ≤ cum r S (t + 1) := hlast _ (by omega) h1
  have h3 := cum_succ r S t
  linarith

/-- Witness for C5 at `r = 1/10`, `S = [-200, 100, 100, 100, 100]`,
`t* = 2`. -/
theorem interpolation_divisor_positive_witness :
    0 < dcf (1/10) [-200, 100, 100, 100, 100] 3 :=
  interpolation_divisor_positive (1/10) [-200, 100, 100, 100, 100] 2
    (by norm_num) (by norm_num)
    (by norm_num [cum, dcf, Finset.sum_range_succ])
    (by intro u h1 h2
        simp only [List.length_cons, List.length_nil] at h2
        interval_cases u <;> norm_num [cum, dcf, Finset.sum_range_succ])
    (by norm_num)

/-- Helper for comparator symmetry: an `'A' if y < x else 'B'` decision
swaps correctly between the two argument orders exactly when the two
values are distinct. -/
theorem ite_choice_swap {α : Type} [LinearOrder α] (x y : α) (h : x ≠ y) :
    ((if y < x then ("A" : String) else "B") = "A" ↔
      (if x < y then ("A" : String) else "B") = "B") := by
  rcases h.lt_or_lt with hlt | hlt
  · rw [if_neg (lt_asymm hlt), if_pos hlt]
    decide
  · rw [if_pos hlt, if_neg (lt_asymm hlt)]
    decide

/-- C3 counterexample: when alternative A's IRR is undefined (`nan`,
embedded as `none`) and B's IRR is defined, the comparator's IRR row
reports `"B"` — it does not report `"undefined"`.  (Python's
`nan > x` is `False`, so the `else` branch labels B the winner.) -/
theorem comparator_nan_irr_counterexample :
    (compare_alternatives none 117 ((294/125 : ℚ) : WithTop ℚ)
      (some (349/1000)) 100 ((3 : ℚ) : WithTop ℚ)).chosenTIR = "B" ∧
    ("B" : String) ≠ "undefined" := by
  exact ⟨rfl, by decide⟩

/-- C3 amended: whenever either IRR is undefined (`nan`, embedded as
`none`), `compare_alternatives` selects `"B"` for the IRR metric — it
does not crash, but it defaults to one side instead of reporting the
comparison as undefined. -/
theorem comparator_nan_irr_defaults_to_B (ta tb : Option ℚ) (va vb : ℚ)
    (pa pb : WithTop ℚ) (h : ta = none ∨ tb = none) :
    (compare_alternatives ta va pa tb vb pb).chosenTIR = "B" := by
  rcases h with rfl | rfl
  · cases tb <;> rfl
  · cases ta <;> rfl

/-- Witness for the amended C3: A's IRR is `nan` (as for the all-positive
series `[100, 100, 100]`), B's IRR is defined, and the IRR row
reports `"B"`. -/
theorem comparator_nan_irr_defaults_to_B_witness :
    (compare_alternatives none 200 ((2 : ℚ) : WithTop ℚ)
      (some (1/2)) 150 ((5/2 : ℚ) : WithTop ℚ)).chosenTIR = "B" :=
  comparator_nan_irr_defaults_to_B none (some (1/2)) 200 150 _ _ (Or.inl rfl)

/-- Supporting fact: `numpy_financial.irr` finds no real internal rate of return for the
all-positive series `[100, 100, 100]` of the spec's Scenario 3: the NPV
is strictly positive at every rate `r > -1`, so no real root exists and
`npf.irr` returns `nan` (embedded as `none`). -/
theorem scenario3_no_irr_root (r : ℝ) (hr : -1 < r) :
    0 < npv r [100, 100, 100] := by
  have h0 : (0 : ℝ) < 1 + r := by linarith
  simp only [npv, List.length_cons, List.length_nil, Finset.sum_range_succ,
    Finset.sum_range_zero, List.getD_cons_zero, List.getD_cons_succ]
  positivity

/-- C6 counterexample: when the two alternatives have exactly equal
metric values, comparing `(A, B)` and comparing `(B, A)` are the same
call and both label `"B"` the winner of every metric, so the winners are
not swapped between the two orders. -/
theorem comparator_symmetry_counterexample :
    ¬(((compare_alternatives (some 1) 2 ((3 : ℚ) : WithTop ℚ)
          (some 1) 2 ((3 : ℚ) : WithTop ℚ)).chosenVPL = "A") ↔
      ((compare_alternatives (some 1) 2 ((3 : ℚ) : WithTop ℚ)
          (some 1) 2 ((3 : ℚ) : WithTop ℚ)).chosenVPL = "B")) := by
  simp only [compare_alternatives, gt_iff_lt]
  rw [if_neg (lt_irrefl (2 : ℚ))]
  decide

/-- C6 amended: comparator symmetry holds when the two alternatives'
values are distinct on every metric and both IRRs are defined: comparing
`(A, B)` and `(B, A)` then yields swapped winners for every metric.  On
ties (or with an undefined IRR) both orders label `"B"` — the second
positional argument — the winner, so symmetry fails there. -/
theorem comparator_swaps_on_distinct_values (ta tb va vb : ℚ)
    (pa pb : WithTop ℚ) (htir : ta ≠ tb) (hvpl : va ≠ vb) (hpb : pa ≠ pb) :
    ((compare_alternatives (some ta) va pa (some tb) vb pb).chosenTIR = "A" ↔
      (compare_alternatives (some tb) vb pb (some ta) va pa).chosenTIR = "B") ∧
    ((compare_alternatives (some ta) va pa (some tb) vb pb).chosenVPL = "A" ↔
      (compare_alternatives (some tb) vb pb (some ta) va pa).chosenVPL = "B") ∧
    ((compare_alternatives (some ta) va pa (some tb) vb pb).chosenPayback = "A" ↔
      (compare_alternatives (some tb) vb pb (some ta) va pa).chosenPayback = "B") := by
  refine ⟨?_, ?_, ?_⟩
  · simpa only [compare_alternatives, floatGt, decide_eq_true_eq]
      using ite_choice_swap ta tb htir
  · simpa only [compare_alternatives, gt_iff_lt]
      using ite_choice_swap va vb hvpl
  · simpa only [compare_alternatives]
      using ite_choice_swap pb pa hpb.symm

/-- Witness for the amended C6 with distinct values on every metric. -/
theorem comparator_swaps_on_distinct_values_witness :
    ((compare_alternatives (some (349/1000)) 117 ((235/100 : ℚ) : WithTop ℚ)
        (some (1/4)) 80 ((4 : ℚ) : WithTop ℚ)).chosenTIR = "A" ↔
      (compare_alternatives (some (1/4)) 80 ((4 : ℚ) : WithTop ℚ)
        (some (349/1000)) 117 ((235/100 : ℚ) : WithTop ℚ)).chosenTIR = "B") ∧
    ((compare_alternatives (some (349/1000)) 117 ((235/100 : ℚ) : WithTop ℚ)
        (some (1/4)) 80 ((4 : ℚ) : WithTop ℚ)).chosenVPL = "A" ↔
      (compare_alternatives (some (1/4)) 80 ((4 : ℚ) : WithTop ℚ)
        (some (349/1000)) 117 ((235/100 : ℚ) : WithTop ℚ)).chosenVPL = "B") ∧
    ((compare_alternatives (some (349/1000)) 117 ((235/100 : ℚ) : WithTop ℚ)
        (some (1/4)) 80 ((4 : ℚ) : WithTop ℚ)).chosenPayback = "A" ↔
      (compare_alternatives (some (1/4)) 80 ((4 : ℚ) : WithTop ℚ)
        (some (349/1000)) 117 ((235/100 : ℚ) : WithTop ℚ)).chosenPayback = "B") :=
  comparator_swaps_on_distinct_values (349/1000) (1/4) 117 80
    ((235/100 : ℚ) : WithTop ℚ) ((4 : ℚ) : WithTop ℚ)
    (by norm_num) (by norm_num)
    (by intro h; rw [WithTop.coe_eq_coe] at h; norm_num at h)

/-- C7 counterexample: when both paybacks are infinite, the comparator's
payback row reports `"B"` (`inf < inf` is `False` in Python, so the
`else` branch fires) — it does not report `"undefined"`. -/
theorem payback_both_infinite_counterexample :
    (compare_alternatives (some 1) 10 (⊤ : WithTop ℚ)
      (some 2) 20 (⊤ : WithTop ℚ)).chosenPayback = "B" ∧
    ("B" : String) ≠ "undefined" := by
  refine ⟨?_, by decide⟩
  simp [compare_alternatives]

/-- C7 amended: the comparator's payback winner is the alternative with
strictly smaller payback, and an infinite payback loses to any finite
payback (these parts of the claim hold); but when both paybacks are
infinite the comparator selects `"B"` instead of reporting the
comparison as undefined. -/
theorem payback_comparison_rule (ta tb : Option ℚ) (va vb : ℚ)
    (pa pb : WithTop ℚ) :
    (pa < pb → (compare_alternatives ta va pa tb vb pb).chosenPayback = "A") ∧
    (pb < pa → (compare_alternatives ta va pa tb vb pb).chosenPayback = "B") ∧
    (pa = ⊤ → pb = ⊤ →
      (compare_alternatives ta va pa tb vb pb).chosenPayback = "B") := by
  refine ⟨fun h => ?_, fun h => ?_, fun h1 h2 => ?_⟩
  · simp only [compare_alternatives, if_pos h]
  · simp only [compare_alternatives, if_neg (lt_asymm h)]
  · subst h1; subst h2
    simp only [compare_alternatives, if_neg (lt_irrefl (⊤ : WithTop ℚ))]

/-- Witness for the amended C7: a finite payback beats an infinite one. -/
theorem payback_comparison_rule_witness :
    (compare_alternatives (some (3/10)) 50 ((2 : ℚ) : WithTop ℚ)
      (some (2/10)) 40 (⊤ : WithTop ℚ)).chosenPayback = "A" :=
  (payback_comparison_rule (some (3/10)) (some (2/10)) 50 40
    ((2 : ℚ) : WithTop ℚ) ⊤).1 (WithTop.coe_lt_top 2)

/-- C8 counterexample: `vpl_a = round(npf.npv(rate, A), 2)` is computed
BEFORE `compare_alternatives` is called, so the comparator receives
rounded values.  With `A = [0.0049]` and `B = [0.0001]` at rate `0`, the
full-precision NPVs differ (A's is strictly greater) by less than
`0.005`, both round to `0.00`, and the rounded tie makes the comparator
label `"B"` the NPV winner — the full-precision values are not the ones
compared. -/
theorem rounding_before_comparison_counterexample :
    npv (0 : ℚ) [49/10000] > npv (0 : ℚ) [1/10000] ∧
    (resultado_comparacao 0 [49/10000] [1/10000] none none).chosenVPL = "B" := by
  have hA : round2 (npv (0 : ℚ) [49/10000]) = 0 := by
    norm_num [round2, roundHalfEven, npv, Finset.sum_range_succ]
  have hB : round2 (npv (0 : ℚ) [1/10000]) = 0 := by
    norm_num [round2, roundHalfEven, npv, Finset.sum_range_succ]
  refine ⟨by norm_num [npv, Finset.sum_range_succ], ?_⟩
  have hproj : (resultado_comparacao 0 [49/10000] [1/10000] none none).chosenVPL =
      if round2 (npv (0 : ℚ) [1/10000]) < round2 (npv (0 : ℚ) [49/10000])
      then "A" else "B" := rfl
  rw [hproj, hA, hB, if_neg (lt_irrefl (0 : ℚ))]

/-- C8 amended: rounding to 2 decimal places is applied to the NPV (and
payback) values BEFORE the comparator runs (lines 113–119 feed
`round(..., 2)` results into `compare_alternatives` at line 139), so the
comparator's NPV winner is decided by the rounded values: `"A"` exactly
when A's rounded NPV is strictly greater, `"B"` whenever it is not — in
particular two NPVs differing by less than `0.005` can round equal, and
the resulting tie labels `"B"` the winner regardless of the
full-precision order. -/
theorem comparator_decides_on_rounded_npv (r : ℚ) (A B : List ℚ)
    (ta tb : Option ℚ) :
    (round2 (npv r B) < round2 (npv r A) →
      (resultado_comparacao r A B ta tb).chosenVPL = "A") ∧
    (round2 (npv r A) ≤ round2 (npv r B) →
      (resultado_comparacao r A B ta tb).chosenVPL = "B") := by
  constructor
  · intro h
    simp only [resultado_comparacao, compare_alternatives, gt_iff_lt, if_pos h]
  · intro h
    simp only [resultado_comparacao, compare_alternatives, gt_iff_lt,
      if_neg (not_lt.mpr h)]

/-- Witness for the amended C8 at `r = 0`, `A = [2]`, `B = [1]`. -/
theorem comparator_decides_on_rounded_npv_witness :
    (resultado_comparacao 0 [2] [1] none none).chosenVPL = "A" := by
  refine (comparator_decides_on_rounded_npv 0 [2] [1] none none).1 ?_
  norm_num [round2, roundHalfEven, npv, Finset.sum_range_succ]

/-- C9 counterexample: for `S = [-200, 100, 100, 100, 100]` at rate
`0.1` the discounted payback computed by the code is exactly
`2.352` (cumulative flows `-200, -109.09, -26.45, +48.69, +116.99`, so
`t* = 2` and `2 + 26.45/75.13 = 2.352`), which is not approximately
`2.74` (more than half a cent away from every value that displays as
`2.74` at 2 decimals). -/
theorem scenario1_payback_counterexample :
    discounted_payback_period (1/10) [-200, 100, 100, 100, 100] =
      ((2352/1000 : ℚ) : WithTop ℚ) ∧
    ¬|(2352/1000 : ℚ) - 274/100| ≤ 5/1000 := by
  constructor
  · have h := payback_interp (r := 1/10) (S := [-200, 100, 100, 100, 100])
      (t := 2) (by norm_num)
      (by norm_num [cum, dcf, Finset.sum_range_succ])
      (by intro u h1 h2
          simp only [List.length_cons, List.length_nil] at h2
          interval_cases u <;> norm_num [cum, dcf, Finset.sum_range_succ])
      (by norm_num)
    rw [h, WithTop.coe_eq_coe]
    norm_num [cum, dcf, Finset.sum_range_succ]
  · rw [abs_le]
    norm_num

/-- C9 amended: for `S = [-200, 100, 100, 100, 100]` at rate `0.1` the
engine produces NPV `116.99` (rounded), an IRR of approximately `34.9%`
(the NPV has a real root within `0.0005` of `0.349`), and a discounted
payback of `2.352`, displaying as `2.35` — not `2.74`. -/
theorem scenario1_metrics :
    round2 (npv (1/10 : ℚ) [-200, 100, 100, 100, 100]) = 11699/100 ∧
    discounted_payback_period (1/10) [-200, 100, 100, 100, 100] =
      ((2352/1000 : ℚ) : WithTop ℚ) ∧
    round2 (2352/1000 : ℚ) = 235/100 ∧
    ∃ r : ℝ, |r - 349/1000| ≤ 1/2000 ∧
      npv r [(-200 : ℝ), 100, 100, 100, 100] = 0 := by
  refine ⟨?_, ?_, ?_, ?_⟩
  · norm_num [round2, roundHalfEven, npv, Finset.sum_range_succ]
  · have h := payback_interp (r := 1/10) (S := [-200, 100, 100, 100, 100])
      (t := 2) (by norm_num)
      (by norm_num [cum, dcf, Finset.sum_range_succ])
      (by intro u h1 h2
          simp only [List.length_cons, List.length_nil] at h2
          interval_cases u <;> norm_num [cum, dcf, Finset.sum_range_succ])
      (by norm_num)
    rw [h, WithTop.coe_eq_coe]
    norm_num [cum, dcf, Finset.sum_range_succ]
  · norm_num [round2, roundHalfEven]
  · have heq : ∀ x : ℝ, npv x [(-200 : ℝ), 100, 100, 100, 100] =
        -200 + 100 / (1 + x) ^ 1 + 100 / (1 + x) ^ 2 + 100 / (1 + x) ^ 3 +
          100 / (1 + x) ^ 4 := by
      intro x
      simp only [npv, List.length_cons, List.length_nil, Finset.sum_range_succ,
        Finset.sum_range_zero, List.getD_cons_zero, List.getD_cons_succ]
      ring
    have hne : ∀ x ∈ Set.Icc (697/2000 : ℝ) (699/2000), (1 : ℝ) + x ≠ 0 := by
      intro x hx
      rcases hx with ⟨h1, _⟩
      positivity
    have hg : ∀ k : ℕ, ContinuousOn (fun x : ℝ => 100 / (1 + x) ^ k)
        (Set.Icc (697/2000 : ℝ) (699/2000)) := fun k =>
      ContinuousOn.div continuousOn_const
        (((continuous_const.add continuous_id).pow k).continuousOn)
        (fun x hx => pow_ne_zero k (hne x hx))
    have hcont : ContinuousOn
        (fun x : ℝ => npv x [(-200 : ℝ), 100, 100, 100, 100])
        (Set.Icc (697/2000 : ℝ) (699/2000)) := by
      refine ContinuousOn.congr ?_ (fun x _ => heq x)
      exact ((((continuousOn_const.add (hg 1)).add (hg 2)).add (hg 3)).add (hg 4))
    have key := intermediate_value_Icc'
      (by norm_num : (697/2000 : ℝ) ≤ 699/2000) hcont
    have hmem : (0 : ℝ) ∈ Set.Icc
        (npv (699/2000 : ℝ) [(-200 : ℝ), 100, 100, 100, 100])
        (npv (697/2000 : ℝ) [(-200 : ℝ), 100, 100, 100, 100]) := by
      rw [Set.mem_Icc, heq, heq]
      norm_num
    obtain ⟨r, hr, hfr⟩ := key hmem
    refine ⟨r, ?_, hfr⟩
    rcases hr with ⟨h1, h2⟩
    rw [abs_le]
    constructor <;> linarith

/-! ### Monotonicity of the discounted payback in the rate -/

/-- Termwise scaling bound for a single-sign-change series: each
discounted flow at the lower rate dominates the one at the higher rate
after weighting both by the `k`-th power of the respective growth
factors. -/
theorem dcf_scale {S : List ℚ} {k : ℕ} (hsc : OneSignChange k S)
    {r₁ r₂ : ℚ} (h1 : -1 < r₁) (h12 : r₁ ≤ r₂) (j : ℕ) :
    (1 + r₂) ^ k * dcf r₂ S j ≤ (1 + r₁) ^ k * dcf r₁ S j := by
  have ha : (0 : ℚ) < 1 + r₁ := by linarith
  have hb : (0 : ℚ) < 1 + r₂ := by linarith
  have hab : (1 : ℚ) + r₁ ≤ 1 + r₂ := by linarith
  rcases le_or_lt j k with hjk | hkj
  · have hs : S.getD j 0 ≤ 0 := hsc.1 j hjk
    obtain ⟨d, rfl⟩ : ∃ d, k = j + d := ⟨k - j, by omega⟩
    have e1 : (1 + r₁) ^ (j + d) * dcf r₁ S j = S.getD j 0 * (1 + r₁) ^ d := by
      simp only [dcf, pow_add]
      field_simp
      ring
    have e2 : (1 + r₂) ^ (j + d) * dcf r₂ S j = S.getD j 0 * (1 + r₂) ^ d := by
      simp only [dcf, pow_add]
      field_simp
      ring
    rw [e1, e2]
    exact mul_le_mul_of_nonpos_left (pow_le_pow_left₀ ha.le hab d) hs
  · have hs : 0 ≤ S.getD j 0 := by
      rcases lt_or_le j S.length with hl | hl
      · exact hsc.2 j hl hkj
      · rw [List.getD_eq_default _ _ hl]
    obtain ⟨d, rfl⟩ : ∃ d, j = k + d := ⟨j - k, by omega⟩
    have e1 : (1 + r₁) ^ k * dcf r₁ S (k + d) =
        S.getD (k + d) 0 / (1 + r₁) ^ d := by
      simp only [dcf, pow_add]
      field_simp
      ring
    have e2 : (1 + r₂) ^ k * dcf r₂ S (k + d) =
        S.getD (k + d) 0 / (1 + r₂) ^ d := by
      simp only [dcf, pow_add]
      field_simp
      ring
    rw [e1, e2]
    gcongr

/-- Summed form of `dcf_scale`: the `k`-weighted cumulative discounted
flow at the lower rate dominates the one at the higher rate. -/
theorem cum_scale {S : List ℚ} {k : ℕ} (hsc : OneSignChange k S)
    {r₁ r₂ : ℚ} (h1 : -1 < r₁) (h12 : r₁ ≤ r₂) (t : ℕ) :
    (1 + r₂) ^ k * cum r₂ S t ≤ (1 + r₁) ^ k * cum r₁ S t := by
  simp only [cum, Finset.mul_sum]
  exact Finset.sum_le_sum fun j _ => dcf_scale hsc h1 h12 j

/-- A period with negative cumulative discounted flow at a lower rate
stays negative at any higher rate (single sign change). -/
theorem cum_neg_mono {S : List ℚ} {k : ℕ} (hsc : OneSignChange k S)
    {r₁ r₂ : ℚ} (h1 : -1 < r₁) (h12 : r₁ ≤ r₂) {t : ℕ}
    (hneg : cum r₁ S t < 0) : cum r₂ S t < 0 := by
  have h := cum_scale hsc h1 h12 t
  have ha : (0 : ℚ) < (1 + r₁) ^ k := pow_pos (by linarith) k
  have hb : (0 : ℚ) < (1 + r₂) ^ k := pow_pos (by linarith) k
  have h2 : (1 + r₂) ^ k * cum r₂ S t < 0 :=
    lt_of_le_of_lt h (mul_neg_of_pos_of_neg ha hneg)
  by_contra hc
  push_neg at hc
  exact absurd (mul_nonneg hb.le hc) (not_le.mpr h2)

/-- Exponent upgrade of `cum_scale`: any exponent `m ≥ k` works at a
period whose cumulative discounted flow is negative at the higher
rate. -/
theorem cum_scale_exp {S : List ℚ} {k : ℕ} (hsc : OneSignChange k S)
    {r₁ r₂ : ℚ} (h1 : -1 < r₁) (h12 : r₁ ≤ r₂) {t m : ℕ} (hkm : k ≤ m)
    (hneg2 : cum r₂ S t < 0) :
    (1 + r₂) ^ m * cum r₂ S t ≤ (1 + r₁) ^ m * cum r₁ S t := by
  have ha : (0 : ℚ) < 1 + r₁ := by linarith
  have hb : (0 : ℚ) < 1 + r₂ := by linarith
  obtain ⟨d, rfl⟩ : ∃ d, m = k + d := ⟨m - k, by omega⟩
  have base := cum_scale hsc h1 h12 t
  calc (1 + r₂) ^ (k + d) * cum r₂ S t
      = (1 + r₂) ^ d * ((1 + r₂) ^ k * cum r₂ S t) := by rw [pow_add]; ring
    _ ≤ (1 + r₁) ^ d * ((1 + r₂) ^ k * cum r₂ S t) :=
        mul_le_mul_of_nonpos_right (pow_le_pow_left₀ ha.le (by linarith) d)
          (mul_neg_of_pos_of_neg (pow_pos hb k) hneg2).le
    _ ≤ (1 + r₁) ^ d * ((1 + r₁) ^ k * cum r₁ S t) :=
        mul_le_mul_of_nonneg_left base (pow_pos ha d).le
    _ = (1 + r₁) ^ (k + d) * cum r₁ S t := by rw [pow_add]; ring

/-- If some cumulative discounted flow is negative, the single-sign-change
series must contain a strictly negative flow in its outflow prefix. -/
theorem exists_neg_flow {S : List ℚ} {k : ℕ} (hsc : OneSignChange k S)
    {r₂ : ℚ} {t : ℕ} (hneg : cum r₂ S t < 0) (hb : (0 : ℚ) < 1 + r₂) :
    ∃ j, j < S.length ∧ j ≤ k ∧ S.getD j 0 < 0 := by
  by_contra hc
  push_neg at hc
  have hall : ∀ j, 0 ≤ dcf r₂ S j := by
    intro j
    apply div_nonneg _ (pow_pos hb j).le
    rcases lt_or_le j S.length with hl | hl
    · rcases le_or_lt j k with h | h
      · exact hc j hl h
      · exact hsc.2 j hl h
    · rw [List.getD_eq_default _ _ hl]
  have : 0 ≤ cum r₂ S t := Finset.sum_nonneg fun j _ => hall j
  linarith

/-- A strictly negative flow inside the outflow prefix makes the
cumulative discounted flow at its period strictly negative (there are
only outflows up to that period). -/
theorem cum_neg_at_prefix {S : List ℚ} {k : ℕ} (hsc : OneSignChange k S)
    {r₁ : ℚ} (ha : (0 : ℚ) < 1 + r₁) {j0 : ℕ} (hj0 : j0 ≤ k)
    (hlt : S.getD j0 0 < 0) : cum r₁ S j0 < 0 := by
  rw [cum, Finset.sum_range_succ]
  have h1 : ∀ j ∈ Finset.range j0, dcf r₁ S j ≤ 0 := by
    intro j hj
    have hjk : j ≤ k := le_trans (Finset.mem_range.mp hj).le hj0
    exact div_nonpos_iff.mpr (Or.inr ⟨hsc.1 j hjk, (pow_pos ha j).le⟩)
  have hsum : ∑ j ∈ Finset.range j0, dcf r₁ S j ≤ 0 := Finset.sum_nonpos h1
  have hlast : dcf r₁ S j0 < 0 := div_neg_of_neg_of_pos hlt (pow_pos ha j0)
  linarith

/-- C10: for a fixed series with a single sign change (conventional
investment shape), the discounted payback period is monotonically
non-decreasing in the discount rate: for `-1 < r₁ ≤ r₂`,
`discounted_payback_period r₁ S ≤ discounted_payback_period r₂ S`
(in `WithTop ℚ`, where infinity is the top element). -/
theorem discounted_payback_monotone_in_rate (S : List ℚ) (k : ℕ)
    (r₁ r₂ : ℚ) (hsc : OneSignChange k S) (h1 : -1 < r₁) (h12 : r₁ ≤ r₂) :
    discounted_payback_period r₁ S ≤ discounted_payback_period r₂ S := by
  have ha : (0 : ℚ) < 1 + r₁ := by linarith
  have hb : (0 : ℚ) < 1 + r₂ := by linarith
  rcases hmax2 : (negPeriods r₂ S).max? with _ | t₂
  · simp [discounted_payback_period, hmax2]
  by_cases hlast2 : t₂ = S.length - 1
  · simp [discounted_payback_period, hmax2, hlast2]
  obtain ⟨hmem2, hub2⟩ := List.max?_eq_some_iff'.mp hmax2
  rcases mem_negPeriods.mp hmem2 with ⟨ht2len, ht2neg⟩
  have hmax_prop2 : ∀ u, t₂ < u → u < S.length → 0 ≤ cum r₂ S u := by
    intro u hu1 hu2
    by_contra hcon
    push_neg at hcon
    exact absurd (hub2 u (mem_negPeriods.mpr ⟨hu2, hcon⟩)) (by omega)
  obtain ⟨j0, hj0len, hj0k, hj0neg⟩ := exists_neg_flow hsc ht2neg hb
  have hj0cum : cum r₁ S j0 < 0 := cum_neg_at_prefix hsc ha hj0k hj0neg
  rcases hmax1 : (negPeriods r₁ S).max? with _ | t₁
  · exfalso
    have hmem : j0 ∈ negPeriods r₁ S := mem_negPeriods.mpr ⟨hj0len, hj0cum⟩
    rw [List.max?_eq_none_iff.mp hmax1] at hmem
    simp at hmem
  obtain ⟨hmem1, hub1⟩ := List.max?_eq_some_iff'.mp hmax1
  rcases mem_negPeriods.mp hmem1 with ⟨ht1len, ht1neg⟩
  have hmax_prop1 : ∀ u, t₁ < u → u < S.length → 0 ≤ cum r₁ S u := by
    intro u hu1 hu2
    by_contra hcon
    push_neg at hcon
    exact absurd (hub1 u (mem_negPeriods.mpr ⟨hu2, hcon⟩)) (by omega)
  have ht12 : t₁ ≤ t₂ :=
    hub2 t₁ (mem_negPeriods.mpr ⟨ht1len, cum_neg_mono hsc h1 h12 ht1neg⟩)
  have hlast1 : t₁ ≠ S.length - 1 := by omega
  simp only [discounted_payback_period, hmax1, hmax2, if_neg hlast1,
    if_neg hlast2]
  rw [WithTop.coe_le_coe]
  have ht1len' : t₁ + 1 < S.length := by omega
  have ht2len' : t₂ + 1 < S.length := by omega
  have hc1 : 0 ≤ cum r₁ S (t₁ + 1) := hmax_prop1 _ (by omega) ht1len'
  have hc2 : 0 ≤ cum r₂ S (t₂ + 1) := hmax_prop2 _ (by omega) ht2len'
  have hd1 : 0 < dcf r₁ S (t₁ + 1) := by
    have := cum_succ r₁ S t₁
    linarith
  have hd2 : 0 < dcf r₂ S (t₂ + 1) := by
    have := cum_succ r₂ S t₂
    linarith
  rcases eq_or_lt_of_le ht12 with rfl | hlt
  · -- same boundary period: compare the interpolated fractions
    have hst : 0 < S.getD (t₁ + 1) 0 := by
      have hdefeq : dcf r₂ S (t₁ + 1) =
          S.getD (t₁ + 1) 0 / (1 + r₂) ^ (t₁ + 1) := rfl
      rw [hdefeq] at hd2
      by_contra hcon
      push_neg at hcon
      exact absurd (div_nonpos_iff.mpr
        (Or.inr ⟨hcon, (pow_pos hb (t₁ + 1)).le⟩)) (not_le.mpr hd2)
    have hk : k ≤ t₁ + 1 := by
      by_contra hcon
      push_neg at hcon
      exact absurd (hsc.1 _ (by omega)) (not_le.mpr hst)
    have hkey := cum_scale_exp hsc h1 h12 hk ht2neg
    have hfrac : (- cum r₁ S t₁) / dcf r₁ S (t₁ + 1) ≤
        (- cum r₂ S t₁) / dcf r₂ S (t₁ + 1) := by
      rw [div_le_div_iff₀ hd1 hd2]
      show (- cum r₁ S t₁) * (S.getD (t₁ + 1) 0 / (1 + r₂) ^ (t₁ + 1)) ≤
        (- cum r₂ S t₁) * (S.getD (t₁ + 1) 0 / (1 + r₁) ^ (t₁ + 1))
      rw [← mul_div_assoc, ← mul_div_assoc,
        div_le_div_iff₀ (pow_pos hb (t₁ + 1)) (pow_pos ha (t₁ + 1))]
      nlinarith [mul_le_mul_of_nonneg_left hkey hst.le]
    linarith
  · -- strictly earlier boundary at the lower rate
    have hfrac1 : (- cum r₁ S t₁) / dcf r₁ S (t₁ + 1) ≤ 1 := by
      rw [div_le_one hd1]
      have := cum_succ r₁ S t₁
      linarith
    have hfrac2 : 0 ≤ (- cum r₂ S t₂) / dcf r₂ S (t₂ + 1) :=
      div_nonneg (by linarith) hd2.le
    have hcast : (t₁ : ℚ) + 1 ≤ (t₂ : ℚ) := by
      exact_mod_cast Nat.succ_le_of_lt hlt
    linarith

/-- Witness for C10: `S = [-200, 100, 100, 100, 100]` with sign change
at `k = 0`, rates `0 ≤ 1/10`. -/
theorem discounted_payback_monotone_in_rate_witness :
    discounted_payback_period 0 [-200, 100, 100, 100, 100] ≤
      discounted_payback_period (1/10) [-200, 100, 100, 100, 100] :=
  discounted_payback_monotone_in_rate [-200, 100, 100, 100, 100] 0 0 (1/10)
    ⟨by
      intro j hj
      interval_cases j
      norm_num,
     by
      intro j hjlen hj
      simp only [List.length_cons, List.length_nil] at hjlen
      interval_cases j <;> norm_num⟩
    (by norm_num) (by norm_num)

end EngEcon
